import Mathlib

/-!
# Verification of the code execution engine

A shallow embedding of the code-runner engine:

* `executeCode` embeds `executeCode` from the executor's
  `codeExecutor.service.js`: language validation, workspace creation,
  file staging, the optional compile phase, the run phase, and the
  `finally` cleanup of the temporary directory.
* `executeTestCases` embeds `executeTestCases` from
  `services/testCase.service.js`: per-case invocation of the executor,
  trimmed output comparison, per-case fault isolation, and the final
  re-sort of the results by `order`.

External effects (filesystem operations, child processes, the clock) are
abstracted by an environment `ExecEnv` that supplies the outcome of each
effectful call, and every effect that the code performs is recorded in an
ordered trace of `FsEffect` values, so that ordering and cleanup
properties are statable.

JavaScript idioms are modelled explicitly: `jsOrStr` is `a || b` on
strings (the empty string is falsy), `jsOrInt` is `a || b` where `a` is a
possibly-undefined number (`0` and `undefined` are falsy),
`jsReplaceFirst` is `String.prototype.replace` with a string pattern
(first occurrence only), and `jsBasename` is Node's
`path.basename(name, ext)`.
-/

/-- JavaScript `a || b` for strings: the empty string is falsy, and a
missing (`undefined`) string field is modelled as `""`. -/
def jsOrStr (a b : String) : String :=
  if a = "" then b else a

/-- JavaScript `a || b` where `a` is a possibly-undefined number:
`undefined` and `0` are falsy and fall through to `b`. -/
def jsOrInt (a : Option Int) (b : Int) : Int :=
  match a with
  | none => b
  | some c => if c = 0 then b else c

/-- JavaScript `parseInt(s) || fallback` as used for
`MAX_EXECUTION_TIME`: an unset variable (`NaN`) or `0` falls back. -/
def jsOrNat (a : Option Nat) (fallback : Nat) : Nat :=
  match a with
  | none => fallback
  | some n => if n = 0 then fallback else n

/-- Replace the first occurrence of `pat` in the character list (helper
for `jsReplaceFirst`). -/
def replaceFirstAux (pat repl : List Char) : List Char → List Char
  | [] => []
  | c :: rest =>
    if pat.isPrefixOf (c :: rest) then repl ++ (c :: rest).drop pat.length
    else c :: replaceFirstAux pat repl rest

/-- JavaScript `String.prototype.replace` with a string pattern: replaces
only the first occurrence of `pat` in `s` (an empty pattern inserts the
replacement at the front, as in JS). -/
def jsReplaceFirst (s pat repl : String) : String :=
  if pat = "" then repl ++ s
  else String.mk (replaceFirstAux pat.data repl.data s.data)

/-- Split a character list on `/` (helper for `lastComponent`). -/
def splitOnSlash : List Char → List (List Char)
  | [] => [[]]
  | c :: rest =>
    let r := splitOnSlash rest
    if c = '/' then [] :: r
    else
      match r with
      | [] => [[c]]
      | x :: xs => (c :: x) :: xs

/-- The last `/`-separated component of a path, as Node's
`path.basename` computes before extension stripping. -/
def lastComponent (s : String) : String :=
  match (splitOnSlash s.data).getLast? with
  | some b => String.mk b
  | none => s

/-- Node's `path.basename(s, ext)`: the last path component, with a
trailing `ext` removed unless the whole component equals `ext`. -/
def jsBasename (s ext : String) : String :=
  let b := (lastComponent s).data
  if String.mk b ≠ ext ∧ ext ≠ "" ∧ ext.data.isSuffixOf b then
    String.mk (b.take (b.length - ext.data.length))
  else String.mk b

/-- JavaScript `String.prototype.trim`: strip leading and trailing
whitespace, nothing else. -/
def jsTrim (s : String) : String :=
  String.mk
    (((s.data.dropWhile Char.isWhitespace).reverse.dropWhile
        Char.isWhitespace).reverse)

/-- A submitted source file (`{ name, content, isMain }`). -/
structure SourceFile where
  name : String
  content : String
  isMain : Bool
deriving DecidableEq, Repr

/-- The run command of a language configuration: interpreted languages
store a plain program string (`run: "node"`), compiled languages store a
template function (`run: (file) => ...`). -/
inductive RunSpec where
  | interp (prog : String)
  | templ (f : String → String)

/-- One entry of `languageConfigs`. -/
structure LangConfig where
  extension : String
  compile : Option (String → String)
  run : RunSpec
  timeout : Nat

/-- The static `languageConfigs` table of the executor service, keyed by
the language name.  `maxExecTime` models the `MAX_EXECUTION_TIME`
environment variable. -/
def languageConfigs (maxExecTime : Option Nat) : String → Option LangConfig
  | "nodejs" => some { extension := ".js", compile := none,
                       run := RunSpec.interp "node",
                       timeout := jsOrNat maxExecTime 10000 }
  | "python" => some { extension := ".py", compile := none,
                       run := RunSpec.interp "python3",
                       timeout := jsOrNat maxExecTime 10000 }
  | "java" => some { extension := ".java",
                     compile := some (fun file => "javac " ++ file),
                     run := RunSpec.templ (fun className => "java " ++ className),
                     timeout := jsOrNat maxExecTime 15000 }
  | "cpp" => some { extension := ".cpp",
                    compile := some (fun file =>
                      "g++ -o " ++ jsReplaceFirst file ".cpp" "" ++ " " ++ file),
                    run := RunSpec.templ (fun file => "./" ++ jsReplaceFirst file ".cpp" ""),
                    timeout := jsOrNat maxExecTime 10000 }
  | "c" => some { extension := ".c",
                  compile := some (fun file =>
                    "gcc -o " ++ jsReplaceFirst file ".c" "" ++ " " ++ file),
                  run := RunSpec.templ (fun file => "./" ++ jsReplaceFirst file ".c" ""),
                  timeout := jsOrNat maxExecTime 10000 }
  | _ => none

/-- The result object assembled by `executeCode` (`stdout`, `stderr`,
`exitCode`, `compilationOutput`, `executionTime`, `memoryUsage`,
`success`). -/
structure ExecutionResult where
  stdout : String
  stderr : String
  exitCode : Int
  compilationOutput : String
  executionTime : Nat
  memoryUsage : Nat
  success : Bool
deriving DecidableEq, Repr

/-- The error object with which a promisified `exec` call rejects:
captured streams (empty when `undefined`), the `Error` message, the exit
code (`none` when `undefined`, e.g. on a timeout kill), the terminating
signal (`""` when none) and the `killed` flag. -/
structure ExecError where
  stdout : String
  stderr : String
  message : String
  code : Option Int
  signal : String
  killed : Bool
deriving DecidableEq, Repr

/-- Outcome of one `execPromise` call: fulfilled with the two captured
streams, or rejected with an `ExecError`. -/
inductive ProcOutcome where
  | ok (stdout stderr : String)
  | err (e : ExecError)
deriving DecidableEq, Repr

/-- Outcome of one `executeCode` call: a returned result or a thrown
error message. -/
inductive CallResult where
  | ok (result : ExecutionResult)
  | thrown (message : String)
deriving DecidableEq, Repr

/-- One recorded external effect of an execution, in program order.
`removeDir` records whether the removal succeeded. -/
inductive FsEffect where
  | createDir (path : String)
  | writeFile (path : String)
  | chmod (path : String)
  | execCmd (cmd : String)
  | removeDir (path : String) (ok : Bool)
deriving DecidableEq, Repr

/-- The environment of one `executeCode` call: the outcome of every
external effect the call may perform.  `compileDuration` and
`runDuration` are the wall-clock spans, in milliseconds, of the compile
and run `execPromise` awaits; the glue code between the two `hrtime`
readings is treated as instantaneous, so the elapsed time measured by
the code is the sum of the durations of the awaits it spans. -/
structure ExecEnv where
  baseTempDir : String
  executionId : String
  ensureBaseErr : Option String
  ensureDirErr : Option String
  dirExists : Bool
  writeErr : String → Option String
  chmodErr : String → Option String
  stdinWriteErr : Option String
  compileOutcome : ProcOutcome
  compileDuration : Nat
  runOutcome : ProcOutcome
  runDuration : Nat
  removeOk : Bool
  maxExecTime : Option Nat

/-- `files.find((file) => file.isMain) || files[0]` — the main file, or
the first file, or `undefined`. -/
def jsMainFile (files : List SourceFile) : Option SourceFile :=
  (files.find? (fun f => f.isMain)).orElse (fun _ => files.head?)

/-- The staging loop: write every file into the workspace and, for
compiled languages, `chmod` it; the first failure aborts with the
`Failed to write file` message.  Returns the effects attempted and the
thrown message, if any. -/
def stageFiles (writeErr chmodErr : String → Option String) (hasCompile : Bool)
    (tempDir : String) : List SourceFile → List FsEffect × Option String
  | [] => ([], none)
  | file :: rest =>
    let filePath := tempDir ++ "/" ++ file.name
    match writeErr file.name with
    | some m =>
      ([FsEffect.writeFile filePath],
       some ("Failed to write file \"" ++ file.name ++ "\": " ++ m))
    | none =>
      if hasCompile then
        match chmodErr file.name with
        | some m =>
          ([FsEffect.writeFile filePath, FsEffect.chmod filePath],
           some ("Failed to write file \"" ++ file.name ++ "\": " ++ m))
        | none =>
          let tail := stageFiles writeErr chmodErr hasCompile tempDir rest
          (FsEffect.writeFile filePath :: FsEffect.chmod filePath :: tail.fst, tail.snd)
      else
        let tail := stageFiles writeErr chmodErr hasCompile tempDir rest
        (FsEffect.writeFile filePath :: tail.fst, tail.snd)

/-- The run command: `config.run(className)` for Java (class name =
basename without `.java`), `config.run(mainFile.name)` for other
compiled languages, `` `${config.run} ${mainFile.name}` `` for
interpreted ones, with ` < input.txt` appended when stdin is present. -/
def buildRunCmd (language : String) (config : LangConfig) (mainName stdin : String) :
    String :=
  let applied :=
    match config.run with
    | RunSpec.interp prog => prog ++ " " ++ mainName
    | RunSpec.templ f =>
      if language = "java" then f (jsBasename mainName ".java") else f mainName
  if stdin = "" then applied else applied ++ " < input.txt"

/-- The run phase of `executeCode`: build the run command, invoke it,
and assemble the final result.  `compOut` is the `compilationOutput`
already stored in the result; `cElapsed` is the wall-clock time already
spent since the `hrtime` reading (the compile phase).  A rejection whose
error was signalled with `SIGTERM` or marked `killed` gets the synthetic
`Execution timed out` marker appended to `stderr`. -/
def runPhase (runOutcome : ProcOutcome) (runDuration : Nat) (language : String)
    (config : LangConfig) (mainName stdin compOut : String) (cElapsed : Nat) :
    ExecutionResult × FsEffect :=
  let runCmd := buildRunCmd language config mainName stdin
  match runOutcome with
  | ProcOutcome.ok out errS =>
    ({ stdout := out, stderr := errS, exitCode := 0,
       compilationOutput := compOut,
       executionTime := cElapsed + runDuration,
       memoryUsage := 0, success := true }, FsEffect.execCmd runCmd)
  | ProcOutcome.err e =>
    let baseStderr := jsOrStr e.stderr e.message
    let finalStderr :=
      if e.signal = "SIGTERM" ∨ e.killed = true then
        baseStderr ++ "\nExecution timed out"
      else baseStderr
    ({ stdout := e.stdout, stderr := finalStderr,
       exitCode := jsOrInt e.code 1,
       compilationOutput := compOut,
       executionTime := cElapsed + runDuration,
       memoryUsage := 0, success := false }, FsEffect.execCmd runCmd)

/-- The compile phase (if the language has one) followed by the run
phase, starting right after staging: this is the part of `executeCode`
between the `hrtime` start reading and the `return result`.  Returns the
outcome together with the process effects it performs.  A non-empty
compiler `stderr` stream, or a compiler process rejection, returns a
failure result without starting the run phase. -/
def phases (compileOutcome : ProcOutcome) (compileDuration : Nat)
    (runOutcome : ProcOutcome) (runDuration : Nat) (config : LangConfig)
    (language mainName stdin : String) : CallResult × List FsEffect :=
  match config.compile with
  | some tmpl =>
    let compileCmd := tmpl mainName
    match compileOutcome with
    | ProcOutcome.ok out errS =>
      if errS ≠ "" then
        (CallResult.ok { stdout := "", stderr := errS, exitCode := 1,
                         compilationOutput := out, executionTime := 0,
                         memoryUsage := 0, success := false },
         [FsEffect.execCmd compileCmd])
      else
        let r := runPhase runOutcome runDuration language config
                   mainName stdin out compileDuration
        (CallResult.ok r.fst, [FsEffect.execCmd compileCmd, r.snd])
    | ProcOutcome.err e =>
      (CallResult.ok { stdout := "", stderr := jsOrStr e.stderr e.message,
                       exitCode := jsOrInt e.code 1, compilationOutput := "",
                       executionTime := 0, memoryUsage := 0,
                       success := false },
       [FsEffect.execCmd compileCmd])
  | none =>
    let r := runPhase runOutcome runDuration language config mainName stdin "" 0
    (CallResult.ok r.fst, [r.snd])

/-- The body of the `try` block of `executeCode`: create and verify the
workspace, resolve the main file, stage the files and stdin, then drive
the compile phase (if any) and the run phase via `phases`.  Thrown
errors become `CallResult.thrown`. -/
def executeBody (env : ExecEnv) (config : LangConfig) (language : String)
    (files : List SourceFile) (stdin : String) (tempDir : String) :
    CallResult × List FsEffect :=
  match env.ensureBaseErr with
  | some m => (CallResult.thrown m, [FsEffect.createDir env.baseTempDir])
  | none =>
  match env.ensureDirErr with
  | some m =>
    (CallResult.thrown m,
     [FsEffect.createDir env.baseTempDir, FsEffect.createDir tempDir])
  | none =>
  let pre := [FsEffect.createDir env.baseTempDir, FsEffect.createDir tempDir]
  if env.dirExists = false then
    (CallResult.thrown ("Failed to create temporary directory: " ++ tempDir), pre)
  else
  match jsMainFile files with
  | none => (CallResult.thrown "No files provided", pre)
  | some mainFile =>
  let staged := stageFiles env.writeErr env.chmodErr config.compile.isSome tempDir files
  match staged.snd with
  | some m => (CallResult.thrown m, pre ++ staged.fst)
  | none =>
  if stdin ≠ "" ∧ env.stdinWriteErr.isSome then
    (CallResult.thrown
       ("Failed to write stdin file: " ++ env.stdinWriteErr.getD ""),
     pre ++ staged.fst ++ [FsEffect.writeFile (tempDir ++ "/input.txt")])
  else
  let stdinTrace :=
    if stdin = "" then [] else [FsEffect.writeFile (tempDir ++ "/input.txt")]
  let ph := phases env.compileOutcome env.compileDuration env.runOutcome
              env.runDuration config language mainFile.name stdin
  (ph.fst, pre ++ staged.fst ++ stdinTrace ++ ph.snd)

/-- The embedded `executeCode({ language, files, stdin })`.  An
unsupported language throws before any effect; otherwise the `try` body
runs and the `finally` block attempts removal of the workspace on every
exit path, swallowing a removal failure (outcome unchanged, attempt
recorded in the trace). -/
def executeCode (env : ExecEnv) (language : String) (files : List SourceFile)
    (stdin : String) : CallResult × List FsEffect :=
  match languageConfigs env.maxExecTime language with
  | none => (CallResult.thrown ("Unsupported language: " ++ language), [])
  | some config =>
    let tempDir := env.baseTempDir ++ "/" ++ env.executionId
    let body := executeBody env config language files stdin tempDir
    (body.fst, body.snd ++ [FsEffect.removeDir tempDir env.removeOk])

/-- One test case (`{ input, expectedOutput, order }`). -/
structure TestCase where
  input : String
  expectedOutput : String
  order : Int
deriving DecidableEq, Repr

/-- One per-case record pushed by `executeTestCases`: the spread test
case plus the execution fields and the comparison verdict. -/
structure TestCaseResult where
  input : String
  expectedOutput : String
  order : Int
  actualOutput : String
  stderr : String
  compilationOutput : String
  executionTime : Nat
  exitCode : Int
  passed : Bool
  success : Bool
deriving DecidableEq, Repr

/-- Processing of one test case from the outcome of its `executeCode`
call: on a returned result, compare trimmed actual output with trimmed
expected output; on a thrown fault, record a failed case carrying the
fault message in `stderr`. -/
def processCase (outcome : CallResult) (tc : TestCase) : TestCaseResult :=
  match outcome with
  | CallResult.ok r =>
    let normalizedActual := jsTrim (jsOrStr r.stdout "")
    let normalizedExpected := jsTrim (jsOrStr tc.expectedOutput "")
    let passed := normalizedActual == normalizedExpected
    { input := tc.input, expectedOutput := tc.expectedOutput, order := tc.order,
      actualOutput := jsOrStr r.stdout "", stderr := jsOrStr r.stderr "",
      compilationOutput := jsOrStr r.compilationOutput "",
      executionTime := r.executionTime, exitCode := r.exitCode,
      passed := passed, success := r.success && passed }
  | CallResult.thrown msg =>
    { input := tc.input, expectedOutput := tc.expectedOutput, order := tc.order,
      actualOutput := "", stderr := msg, compilationOutput := "",
      executionTime := 0, exitCode := 1, passed := false, success := false }

/-- Boolean comparison used by `results.sort((a, b) => a.order - b.order)`. -/
def orderLe (a b : TestCaseResult) : Bool :=
  decide (a.order ≤ b.order)

/-- The embedded `executeTestCases({ language, files, testCases })`.
The external `executeCode` calls are abstracted by `runner`, which maps
the index of the call (the calls happen sequentially, in array order) to
its outcome.  Returns the result list — the per-case records sorted by
`order` — together with the log of the stdin values passed to the
runner, in call order. -/
def executeTestCases (runner : Nat → CallResult) (testCases : List TestCase) :
    List TestCaseResult × List String :=
  let results := testCases.enum.map (fun p => processCase (runner p.fst) p.snd)
  let callLog := testCases.map (fun tc => jsOrStr tc.input "")
  (results.mergeSort orderLe, callLog)

/-- The command strings handed to the shell, extracted from an effect
trace in order. -/
def execCmds : List FsEffect → List String
  | [] => []
  | FsEffect.execCmd c :: rest => c :: execCmds rest
  | FsEffect.createDir _ :: rest => execCmds rest
  | FsEffect.writeFile _ :: rest => execCmds rest
  | FsEffect.chmod _ :: rest => execCmds rest
  | FsEffect.removeDir _ _ :: rest => execCmds rest

/-- The staging of a call succeeds: directory creation and verification,
every file write and chmod, and the stdin write (when stdin is present)
all succeed in the environment. -/
def stagingOk (env : ExecEnv) (files : List SourceFile) (stdin : String) : Prop :=
  env.ensureBaseErr = none ∧ env.ensureDirErr = none ∧ env.dirExists = true ∧
  (∀ f ∈ files, env.writeErr f.name = none ∧ env.chmodErr f.name = none) ∧
  (stdin = "" ∨ env.stdinWriteErr = none)

/-- The parts of a submitted file visible to command construction and
staging: its name and main flag, not its content. -/
def nameMain (f : SourceFile) : String × Bool := (f.name, f.isMain)

/-- A sample environment in which every external effect succeeds. -/
def sampleEnv : ExecEnv := {
  baseTempDir := "/tmp/code-execution", executionId := "id1",
  ensureBaseErr := none, ensureDirErr := none, dirExists := true,
  writeErr := fun _ => none, chmodErr := fun _ => none, stdinWriteErr := none,
  compileOutcome := ProcOutcome.ok "" "",
  compileDuration := 5,
  runOutcome := ProcOutcome.ok "hello\n" "",
  runDuration := 3,
  removeOk := true, maxExecTime := none }

/-- A sample single-file C submission. -/
def sampleCFile : SourceFile :=
  { name := "main.c", content := "int main()", isMain := true }

/-- A sample single-file Node.js submission. -/
def sampleJsFile : SourceFile :=
  { name := "main.js", content := "console.log(1)", isMain := true }

/-- A C submission whose file name contains a path-traversal segment. -/
def traversalFile : SourceFile :=
  { name := "../evil.c", content := "int main()", isMain := true }

theorem jsOrStr_empty (x : String) : jsOrStr x "" = x := by
  unfold jsOrStr
  split <;> simp_all

theorem jsOrInt_one_ne_zero (a : Option Int) : jsOrInt a 1 ≠ 0 := by
  unfold jsOrInt
  cases a with
  | none => simp
  | some c =>
    by_cases hc : c = 0 <;> simp [hc]

theorem execCmds_append (l₁ l₂ : List FsEffect) :
    execCmds (l₁ ++ l₂) = execCmds l₁ ++ execCmds l₂ := by
  induction l₁ with
  | nil => simp [execCmds]
  | cons e rest ih => cases e <;> simp [execCmds, ih]

theorem executeBody_removeOk (env : ExecEnv) (b : Bool) (config : LangConfig)
    (language : String) (files : List SourceFile) (stdin td : String) :
    executeBody { env with removeOk := b } config language files stdin td
      = executeBody env config language files stdin td := rfl

/-- Claim C1: on every exit path of `executeCode` with a supported
language — returned result or thrown error — the removal of the
per-execution workspace directory is attempted (it is the last recorded
effect), with an unsupported language no directory is ever created, and
the outcome of the call never depends on whether the removal succeeds
or fails: a removal failure is only logged. -/
theorem cleanup_on_every_exit_path (env : ExecEnv) (language : String)
    (files : List SourceFile) (stdin : String) :
    ((languageConfigs env.maxExecTime language).isSome = true →
      (executeCode env language files stdin).snd.getLast?
        = some (FsEffect.removeDir (env.baseTempDir ++ "/" ++ env.executionId)
            env.removeOk)) ∧
    (languageConfigs env.maxExecTime language = none →
      (executeCode env language files stdin).snd = []) ∧
    (∀ b₁ b₂ : Bool,
      (executeCode { env with removeOk := b₁ } language files stdin).fst
        = (executeCode { env with removeOk := b₂ } language files stdin).fst) := by
  refine ⟨?_, ?_, ?_⟩
  · intro hs
    cases hconf : languageConfigs env.maxExecTime language with
    | none => rw [hconf] at hs; simp at hs
    | some config => simp [executeCode, hconf]
  · intro hn
    simp [executeCode, hn]
  · intro b₁ b₂
    cases hconf : languageConfigs env.maxExecTime language with
    | none => simp [executeCode, hconf]
    | some config => simp [executeCode, hconf, executeBody_removeOk]

/-- Witness for C1: a concrete call whose trace ends with the removal of
the workspace directory. -/
theorem cleanup_on_every_exit_path_witness :
    (executeCode sampleEnv "python" [sampleJsFile] "").snd.getLast?
      = some (FsEffect.removeDir "/tmp/code-execution/id1" true) :=
  (cleanup_on_every_exit_path sampleEnv "python" [sampleJsFile] "").1 rfl

/-- Claim C8 counterexample: with a supported language and an empty
files collection, `executeCode` does raise the missing-files error, but
only after the per-execution workspace directory was created — the
trace contains its `createDir` — contradicting the claim that the error
is raised before any filesystem work occurs. -/
theorem missing_files_after_workspace_created :
    (executeCode sampleEnv "python" [] "").fst
      = CallResult.thrown "No files provided" ∧
    FsEffect.createDir "/tmp/code-execution/id1"
      ∈ (executeCode sampleEnv "python" [] "").snd := by
  constructor
  · rfl
  · decide

/-- Claim C8 (amended): an unsupported language key is rejected before
any filesystem or process work, but the missing-files error is raised
only after the workspace directory has been created (though before any
file write, compile or run step), and the directory is still removed. -/
theorem validation_order (env : ExecEnv) (language : String)
    (files : List SourceFile) (stdin : String) :
    (languageConfigs env.maxExecTime language = none →
      executeCode env language files stdin
        = (CallResult.thrown ("Unsupported language: " ++ language), [])) ∧
    (∀ config : LangConfig, languageConfigs env.maxExecTime language = some config →
      env.ensureBaseErr = none → env.ensureDirErr = none → env.dirExists = true →
      files = [] →
      executeCode env language files stdin
        = (CallResult.thrown "No files provided",
           [FsEffect.createDir env.baseTempDir,
            FsEffect.createDir (env.baseTempDir ++ "/" ++ env.executionId),
            FsEffect.removeDir (env.baseTempDir ++ "/" ++ env.executionId)
              env.removeOk])) := by
  constructor
  · intro hn
    simp [executeCode, hn]
  · intro config hconf h1 h2 h3 hfiles
    subst hfiles
    simp [executeCode, executeBody, hconf, h1, h2, h3, jsMainFile]

/-- Witness for the amended C8 at concrete calls: an unsupported
language with no effects, and an empty files collection whose error
follows workspace creation. -/
theorem validation_order_witness :
    executeCode sampleEnv "ruby" [] ""
      = (CallResult.thrown "Unsupported language: ruby", []) ∧
    executeCode sampleEnv "python" [] ""
      = (CallResult.thrown "No files provided",
         [FsEffect.createDir "/tmp/code-execution",
          FsEffect.createDir "/tmp/code-execution/id1",
          FsEffect.removeDir "/tmp/code-execution/id1" true]) :=
  ⟨(validation_order sampleEnv "ruby" [] "").1 rfl,
   (validation_order sampleEnv "python" [] "").2 _ rfl rfl rfl rfl rfl⟩

theorem stageFiles_ok (writeErr chmodErr : String → Option String) (hc : Bool)
    (tempDir : String) (files : List SourceFile)
    (h : ∀ f ∈ files, writeErr f.name = none ∧ chmodErr f.name = none) :
    (stageFiles writeErr chmodErr hc tempDir files).snd = none ∧
    execCmds (stageFiles writeErr chmodErr hc tempDir files).fst = [] := by
  induction files with
  | nil => simp [stageFiles, execCmds]
  | cons f rest ih =>
    have hf := h f (List.mem_cons_self f rest)
    have ihr := ih (fun g hg => h g (List.mem_cons_of_mem f hg))
    cases hc with
    | false => simp [stageFiles, hf.1, execCmds, ihr.1, ihr.2]
    | true => simp [stageFiles, hf.1, hf.2, execCmds, ihr.1, ihr.2]

theorem executeCode_staged (env : ExecEnv) (config : LangConfig) (language : String)
    (files : List SourceFile) (stdin : String) (mf : SourceFile)
    (hconf : languageConfigs env.maxExecTime language = some config)
    (hmf : jsMainFile files = some mf)
    (hstage : stagingOk env files stdin) :
    (executeCode env language files stdin).fst
      = (phases env.compileOutcome env.compileDuration env.runOutcome
           env.runDuration config language mf.name stdin).fst ∧
    execCmds (executeCode env language files stdin).snd
      = execCmds (phases env.compileOutcome env.compileDuration env.runOutcome
           env.runDuration config language mf.name stdin).snd := by
  obtain ⟨h1, h2, h3, h4, h5⟩ := hstage
  have hsf := stageFiles_ok env.writeErr env.chmodErr config.compile.isSome
    (env.baseTempDir ++ "/" ++ env.executionId) files h4
  have hss : ¬(stdin ≠ "" ∧ env.stdinWriteErr.isSome = true) := by
    rcases h5 with h5 | h5
    · intro hx; exact hx.1 h5
    · intro hx; rw [h5] at hx; simp at hx
  constructor
  · simp [executeCode, executeBody, hconf, h1, h2, h3, hmf, hsf.1, hss]
  · rcases h5 with h5 | h5
    · simp [executeCode, executeBody, hconf, h1, h2, h3, hmf, hsf.1, h5,
        execCmds_append, execCmds, hsf.2]
    · by_cases hsd : stdin = "" <;>
        simp [executeCode, executeBody, hconf, h1, h2, h3, hmf, hsf.1, h5, hsd,
          execCmds_append, execCmds, hsf.2]

theorem runPhase_executionTime (runOutcome : ProcOutcome) (runDuration : Nat)
    (language : String) (config : LangConfig) (mainName stdin compOut : String)
    (cElapsed : Nat) :
    (runPhase runOutcome runDuration language config mainName stdin
       compOut cElapsed).fst.executionTime = cElapsed + runDuration := by
  cases runOutcome <;> simp [runPhase]

theorem runPhase_timeout (runOutcome : ProcOutcome) (runDuration : Nat)
    (language : String) (config : LangConfig) (mainName stdin compOut : String)
    (cElapsed : Nat) (e : ExecError)
    (hrun : runOutcome = ProcOutcome.err e)
    (ht : e.signal = "SIGTERM" ∨ e.killed = true) :
    (runPhase runOutcome runDuration language config mainName stdin
       compOut cElapsed).fst
      = { stdout := e.stdout,
          stderr := jsOrStr e.stderr e.message ++ "\nExecution timed out",
          exitCode := jsOrInt e.code 1, compilationOutput := compOut,
          executionTime := cElapsed + runDuration, memoryUsage := 0,
          success := false } := by
  subst hrun
  rcases ht with ht | ht <;> simp [runPhase, ht]

theorem phases_run (compileOutcome : ProcOutcome) (compileDuration : Nat)
    (runOutcome : ProcOutcome) (runDuration : Nat) (config : LangConfig)
    (language mainName stdin : String)
    (hgate : config.compile = none ∨
      ∃ out, compileOutcome = ProcOutcome.ok out "") :
    ∃ compOut : String,
      (phases compileOutcome compileDuration runOutcome runDuration config
         language mainName stdin).fst
        = CallResult.ok (runPhase runOutcome runDuration language config
            mainName stdin compOut
            (if config.compile.isSome then compileDuration else 0)).fst := by
  rcases hgate with hcc | ⟨out, hco⟩
  · exact ⟨"", by simp [phases, hcc]⟩
  · cases hcc : config.compile with
    | none => exact ⟨"", by simp [phases, hcc]⟩
    | some tmpl => exact ⟨out, by simp [phases, hcc, hco]⟩

/-- Sample environment whose compile step emits diagnostics on stderr
but nothing on stdout, the usual shape of a gcc/javac failure. -/
def compileDiagEnv : ExecEnv :=
  { sampleEnv with
    compileOutcome := ProcOutcome.ok "" "main.c: error: expected declaration" }

/-- The result `executeCode` returns in `compileDiagEnv`. -/
def compileDiagResult : ExecutionResult :=
  { stdout := "", stderr := "main.c: error: expected declaration", exitCode := 1,
    compilationOutput := "", executionTime := 0, memoryUsage := 0,
    success := false }

/-- Claim C2 counterexample: a compile step that terminates with a
non-empty stderr diagnostic stream and an empty stdout stream yields
`success = false`, `exitCode = 1` and empty `stdout` as claimed, but the
returned `compilationOutput` is EMPTY: the code stores the compiler's
stdout stream there (`result.compilationOutput = stdout`) and surfaces
the diagnostics in `stderr`, refuting the claimed non-empty
`compilationOutput`. -/
theorem compile_diag_empty_compilationOutput :
    (executeCode compileDiagEnv "c" [sampleCFile] "").fst
      = CallResult.ok compileDiagResult ∧
    compileDiagResult.compilationOutput = "" ∧
    compileDiagResult.stderr ≠ "" := by
  refine ⟨rfl, rfl, ?_⟩
  decide

/-- Claim C2 (amended): when the compile step terminates with a
non-empty stderr stream, `executeCode` returns `success = false`,
`exitCode` forced to `1`, empty `stdout`, the diagnostics in (non-empty)
`stderr`, and `compilationOutput` equal to the compiler's stdout stream
(possibly empty); the run phase is never started — the compile command
is the only command handed to the shell. -/
theorem compile_failure_shape (env : ExecEnv) (config : LangConfig)
    (language : String) (files : List SourceFile) (stdin : String)
    (mf : SourceFile) (tmpl : String → String) (out errS : String)
    (hconf : languageConfigs env.maxExecTime language = some config)
    (hmf : jsMainFile files = some mf)
    (hstage : stagingOk env files stdin)
    (hc : config.compile = some tmpl)
    (hco : env.compileOutcome = ProcOutcome.ok out errS)
    (hne : errS ≠ "") :
    (executeCode env language files stdin).fst
      = CallResult.ok { stdout := "", stderr := errS, exitCode := 1,
                        compilationOutput := out, executionTime := 0,
                        memoryUsage := 0, success := false } ∧
    execCmds (executeCode env language files stdin).snd = [tmpl mf.name] := by
  have hs := executeCode_staged env config language files stdin mf hconf hmf hstage
  rw [hs.1, hs.2]
  constructor <;> simp [phases, hc, hco, hne, execCmds]

/-- Sample environment whose compile step emits both a stdout stream and
a stderr diagnostic stream. -/
def compileDiagEnv2 : ExecEnv :=
  { sampleEnv with compileOutcome := ProcOutcome.ok "notes" "boom" }

/-- Witness for the amended C2 at a concrete call. -/
theorem compile_failure_shape_witness :
    (executeCode compileDiagEnv2 "c" [sampleCFile] "").fst
      = CallResult.ok { stdout := "", stderr := "boom", exitCode := 1,
                        compilationOutput := "notes", executionTime := 0,
                        memoryUsage := 0, success := false } ∧
    execCmds (executeCode compileDiagEnv2 "c" [sampleCFile] "").snd
      = ["gcc -o main main.c"] := by
  have h := compile_failure_shape compileDiagEnv2 _ "c" [sampleCFile] "" _ _
    "notes" "boom" rfl rfl ⟨rfl, rfl, rfl, fun _ _ => ⟨rfl, rfl⟩, Or.inl rfl⟩
    rfl rfl (by decide)
  refine ⟨h.1, ?_⟩
  rw [h.2]
  rfl

/-- Sample environment whose compile step is killed by the wall-clock
timeout: the exec error carries `killed = true`, signal `SIGTERM`, no
exit code and empty captured streams. -/
def compileTimeoutEnv : ExecEnv :=
  { sampleEnv with
    compileOutcome := ProcOutcome.err
      { stdout := "", stderr := "", message := "Command failed", code := none,
        signal := "SIGTERM", killed := true } }

/-- Claim C3 counterexample: a COMPILE-phase timeout produces a result
whose `stderr` is just the error message, with no synthetic
`Execution timed out` marker appended (the marker is appended only in
the run phase catch block), and the result record carries no `timedOut`
field at all — refuting the claim for compile-phase timeouts. -/
theorem compile_timeout_no_marker :
    (executeCode compileTimeoutEnv "c" [sampleCFile] "").fst
      = CallResult.ok { stdout := "", stderr := "Command failed", exitCode := 1,
                        compilationOutput := "", executionTime := 0,
                        memoryUsage := 0, success := false } ∧
    "Command failed" ≠ "Command failed" ++ "\nExecution timed out" := by
  refine ⟨rfl, ?_⟩
  decide

/-- Claim C3 (amended): only a RUN-phase termination by the timeout
(`killed` or signal `SIGTERM`) yields a result with `success = false`
and `stderr` equal to the process stderr (or the error message when the
stderr stream is empty) with the synthetic `Execution timed out` marker
appended; the result carries no `timedOut` boolean — the marker is the
only timeout indication — and compile-phase timeouts get no marker. -/
theorem run_timeout_marker (env : ExecEnv) (config : LangConfig)
    (language : String) (files : List SourceFile) (stdin : String)
    (mf : SourceFile) (e : ExecError)
    (hconf : languageConfigs env.maxExecTime language = some config)
    (hmf : jsMainFile files = some mf)
    (hstage : stagingOk env files stdin)
    (hgate : config.compile = none ∨
      ∃ out, env.compileOutcome = ProcOutcome.ok out "")
    (hrun : env.runOutcome = ProcOutcome.err e)
    (ht : e.signal = "SIGTERM" ∨ e.killed = true) :
    ∃ r : ExecutionResult,
      (executeCode env language files stdin).fst = CallResult.ok r ∧
      r.success = false ∧
      r.stderr = jsOrStr e.stderr e.message ++ "\nExecution timed out" ∧
      r.exitCode = jsOrInt e.code 1 := by
  obtain ⟨compOut, hp⟩ := phases_run env.compileOutcome env.compileDuration
    env.runOutcome env.runDuration config language mf.name stdin hgate
  have hs := (executeCode_staged env config language files stdin mf hconf hmf hstage).1
  rw [hs, hp, runPhase_timeout env.runOutcome env.runDuration language config
    mf.name stdin compOut _ e hrun ht]
  exact ⟨_, rfl, rfl, rfl, rfl⟩

/-- Sample environment whose run step is killed by the wall-clock
timeout. -/
def runTimeoutEnv : ExecEnv :=
  { sampleEnv with
    runOutcome := ProcOutcome.err
      { stdout := "", stderr := "", message := "Command failed", code := none,
        signal := "SIGTERM", killed := true } }

/-- Witness for the amended C3 at a concrete call. -/
theorem run_timeout_marker_witness :
    ∃ r : ExecutionResult,
      (executeCode runTimeoutEnv "nodejs" [sampleJsFile] "").fst
        = CallResult.ok r ∧
      r.success = false ∧
      r.stderr = "Command failed" ++ "\nExecution timed out" ∧
      r.exitCode = 1 :=
  run_timeout_marker runTimeoutEnv _ "nodejs" [sampleJsFile] "" _ _ rfl rfl
    ⟨rfl, rfl, rfl, fun _ _ => ⟨rfl, rfl⟩, Or.inl rfl⟩ (Or.inl rfl) rfl
    (Or.inl rfl)

/-- Claim C4 counterexample: in an environment where the compile phase
takes 5 ms and the run phase 3 ms, a compiled-language execution reports
`executionTime = 8`: the timer starts before the compile step, so the
reported time includes the compile phase, refuting the run-phase-only
claim. -/
theorem execution_time_includes_compile :
    (executeCode sampleEnv "c" [sampleCFile] "").fst
      = CallResult.ok { stdout := "hello\n", stderr := "", exitCode := 0,
                        compilationOutput := "", executionTime := 8,
                        memoryUsage := 0, success := true } ∧
    sampleEnv.compileDuration = 5 ∧ sampleEnv.runDuration = 3 ∧
    (8 : Nat) ≠ sampleEnv.runDuration := by
  refine ⟨rfl, rfl, rfl, ?_⟩
  decide

/-- Claim C4 (amended): for every execution that reaches the run phase,
the reported `executionTime` is the wall-clock span from just before the
compile phase to the end of the run phase: compile duration plus run
duration for compiled languages, run duration alone for interpreted
ones. -/
theorem execution_time_spans_compile_and_run (env : ExecEnv)
    (config : LangConfig) (language : String) (files : List SourceFile)
    (stdin : String) (mf : SourceFile)
    (hconf : languageConfigs env.maxExecTime language = some config)
    (hmf : jsMainFile files = some mf)
    (hstage : stagingOk env files stdin)
    (hgate : config.compile = none ∨
      ∃ out, env.compileOutcome = ProcOutcome.ok out "") :
    ∃ r : ExecutionResult,
      (executeCode env language files stdin).fst = CallResult.ok r ∧
      r.executionTime
        = (if config.compile.isSome then env.compileDuration else 0)
            + env.runDuration := by
  obtain ⟨compOut, hp⟩ := phases_run env.compileOutcome env.compileDuration
    env.runOutcome env.runDuration config language mf.name stdin hgate
  have hs := (executeCode_staged env config language files stdin mf hconf hmf hstage).1
  rw [hs, hp]
  exact ⟨_, rfl, runPhase_executionTime env.runOutcome env.runDuration language
    config mf.name stdin compOut _⟩

/-- Witness for the amended C4 at a concrete compiled-language call:
compile takes 5 ms, run takes 3 ms, and the reported time is their
sum. -/
theorem execution_time_spans_compile_and_run_witness :
    ∃ r : ExecutionResult,
      (executeCode sampleEnv "c" [sampleCFile] "").fst = CallResult.ok r ∧
      r.executionTime = 8 :=
  execution_time_spans_compile_and_run sampleEnv _ "c" [sampleCFile] "" _
    rfl rfl ⟨rfl, rfl, rfl, fun _ _ => ⟨rfl, rfl⟩, Or.inl rfl⟩
    (Or.inr ⟨"", rfl⟩)

theorem runPhase_success_iff (runOutcome : ProcOutcome) (runDuration : Nat)
    (language : String) (config : LangConfig) (mainName stdin compOut : String)
    (cElapsed : Nat) :
    ((runPhase runOutcome runDuration language config mainName stdin compOut
        cElapsed).fst.success = true
      ↔ (runPhase runOutcome runDuration language config mainName stdin compOut
          cElapsed).fst.exitCode = 0) := by
  cases runOutcome with
  | ok out errS => simp [runPhase]
  | err e => simp [runPhase, jsOrInt_one_ne_zero e.code]

theorem phases_ok_success_iff (compileOutcome : ProcOutcome)
    (compileDuration : Nat) (runOutcome : ProcOutcome) (runDuration : Nat)
    (config : LangConfig) (language mainName stdin : String)
    (r : ExecutionResult)
    (h : (phases compileOutcome compileDuration runOutcome runDuration config
       language mainName stdin).fst = CallResult.ok r) :
    r.success = true ↔ r.exitCode = 0 := by
  unfold phases at h
  split at h
  · split at h
    · split at h
      · simp at h
        rw [← h]
        simp
      · simp at h
        rw [← h]
        exact runPhase_success_iff runOutcome runDuration language config
          mainName stdin _ compileDuration
    · simp at h
      rw [← h]
      simp [jsOrInt_one_ne_zero]
  · simp at h
    rw [← h]
    exact runPhase_success_iff runOutcome runDuration language config
      mainName stdin "" 0

theorem executeBody_fst_ok (env : ExecEnv) (config : LangConfig)
    (language : String) (files : List SourceFile) (stdin td : String)
    (r : ExecutionResult)
    (h : (executeBody env config language files stdin td).fst = CallResult.ok r) :
    ∃ mainName : String,
      (phases env.compileOutcome env.compileDuration env.runOutcome
         env.runDuration config language mainName stdin).fst
        = CallResult.ok r := by
  unfold executeBody at h
  repeat' first | split at h | dsimp only at h
  all_goals try simp at h
  all_goals exact ⟨_, h⟩

/-- Claim C10: every `ExecutionResult` that `executeCode` returns (as
opposed to throws) satisfies `success = true` if and only if
`exitCode = 0`: every compile-failure and run-failure path forces a
non-zero exit code and the success path sets exit code `0`. -/
theorem success_iff_exit_zero (env : ExecEnv) (language : String)
    (files : List SourceFile) (stdin : String) (r : ExecutionResult)
    (h : (executeCode env language files stdin).fst = CallResult.ok r) :
    r.success = true ↔ r.exitCode = 0 := by
  unfold executeCode at h
  split at h
  · simp at h
  · simp at h
    obtain ⟨mainName, hp⟩ := executeBody_fst_ok env _ language files stdin _ r h
    exact phases_ok_success_iff env.compileOutcome env.compileDuration
      env.runOutcome env.runDuration _ language mainName stdin r hp

/-- Witness for C10 at a concrete successful run. -/
theorem success_iff_exit_zero_witness :
    (({ stdout := "hello\n", stderr := "", exitCode := 0,
        compilationOutput := "", executionTime := 3, memoryUsage := 0,
        success := true } : ExecutionResult).success = true
      ↔ ({ stdout := "hello\n", stderr := "", exitCode := 0,
           compilationOutput := "", executionTime := 3, memoryUsage := 0,
           success := true } : ExecutionResult).exitCode = 0) :=
  success_iff_exit_zero sampleEnv "nodejs" [sampleJsFile] "" _ rfl

/-- Claim C9 counterexample: a submission whose file name contains a
path-traversal segment is NOT rejected: `executeCode` completes
normally and the traversal name is substituted into both shell
commands, refuting the claimed rejection before template
substitution. -/
theorem traversal_name_not_rejected :
    (executeCode sampleEnv "c" [traversalFile] "").fst
      = CallResult.ok { stdout := "hello\n", stderr := "", exitCode := 0,
                        compilationOutput := "", executionTime := 8,
                        memoryUsage := 0, success := true } ∧
    execCmds (executeCode sampleEnv "c" [traversalFile] "").snd
      = ["gcc -o ../evil ../evil.c", "./../evil"] := by
  constructor
  · rfl
  · rfl

theorem find?_isMain_nameMain (files₁ files₂ : List SourceFile)
    (h : files₁.map nameMain = files₂.map nameMain) :
    Option.map nameMain (files₁.find? (fun f => f.isMain))
      = Option.map nameMain (files₂.find? (fun f => f.isMain)) := by
  induction files₁ generalizing files₂ with
  | nil =>
    have h2 : files₂ = [] := by simpa using h.symm
    subst h2
    rfl
  | cons f fs ih =>
    cases files₂ with
    | nil => simp at h
    | cons g gs =>
      simp only [List.map_cons, List.cons.injEq] at h
      have hmain : f.isMain = g.isMain := congrArg Prod.snd h.1
      rw [List.find?_cons, List.find?_cons]
      cases hb : f.isMain with
      | true =>
        rw [hb] at hmain
        rw [← hmain]
        simpa using h.1
      | false =>
        rw [hb] at hmain
        rw [← hmain]
        exact ih gs h.2

theorem head?_nameMain (files₁ files₂ : List SourceFile)
    (h : files₁.map nameMain = files₂.map nameMain) :
    Option.map nameMain files₁.head? = Option.map nameMain files₂.head? := by
  cases files₁ <;> cases files₂ <;> simp_all

theorem jsMainFile_nameMain (files₁ files₂ : List SourceFile)
    (h : files₁.map nameMain = files₂.map nameMain) :
    Option.map nameMain (jsMainFile files₁)
      = Option.map nameMain (jsMainFile files₂) := by
  unfold jsMainFile
  have h1 := find?_isMain_nameMain files₁ files₂ h
  have h2 := head?_nameMain files₁ files₂ h
  cases hf₁ : files₁.find? (fun f => f.isMain) with
  | some x =>
    cases hf₂ : files₂.find? (fun f => f.isMain) with
    | some y =>
      rw [hf₁, hf₂] at h1
      simpa [Option.orElse] using h1
    | none =>
      rw [hf₁, hf₂] at h1
      simp at h1
  | none =>
    cases hf₂ : files₂.find? (fun f => f.isMain) with
    | some y =>
      rw [hf₁, hf₂] at h1
      simp at h1
    | none =>
      simpa [Option.orElse] using h2

theorem stageFiles_nameMain (w c : String → Option String) (hc : Bool)
    (t : String) (files₁ files₂ : List SourceFile)
    (h : files₁.map nameMain = files₂.map nameMain) :
    stageFiles w c hc t files₁ = stageFiles w c hc t files₂ := by
  induction files₁ generalizing files₂ with
  | nil =>
    have h2 : files₂ = [] := by simpa using h.symm
    subst h2
    rfl
  | cons f fs ih =>
    cases files₂ with
    | nil => simp at h
    | cons g gs =>
      simp only [List.map_cons, List.cons.injEq] at h
      have hname : f.name = g.name := congrArg Prod.fst h.1
      have ihr := ih gs h.2
      simp only [stageFiles, hname, ihr]

/-- Claim C9 (amended): the compile and run command strings — indeed the
whole outcome and effect trace — are functions only of the language
profile templates, the submitted file names and main flags, and the
stdin value: two submissions that differ only in file CONTENTS produce
identical results and identical command strings.  However, file names
are not validated: names containing path-traversal segments are
substituted into the commands unrejected (see the counterexample). -/
theorem commands_content_independent (env : ExecEnv) (language stdin : String)
    (files₁ files₂ : List SourceFile)
    (h : files₁.map nameMain = files₂.map nameMain) :
    executeCode env language files₁ stdin = executeCode env language files₂ stdin := by
  unfold executeCode
  cases hconf : languageConfigs env.maxExecTime language with
  | none => rfl
  | some config =>
    have hsf := stageFiles_nameMain env.writeErr env.chmodErr
      config.compile.isSome (env.baseTempDir ++ "/" ++ env.executionId)
      files₁ files₂ h
    have hmf := jsMainFile_nameMain files₁ files₂ h
    have hb : executeBody env config language files₁ stdin
        (env.baseTempDir ++ "/" ++ env.executionId)
        = executeBody env config language files₂ stdin
          (env.baseTempDir ++ "/" ++ env.executionId) := by
      unfold executeBody
      rw [hsf]
      cases h₁ : jsMainFile files₁ with
      | none =>
        cases h₂ : jsMainFile files₂ with
        | none => rfl
        | some g₀ => rw [h₁, h₂] at hmf; simp at hmf
      | some f₀ =>
        cases h₂ : jsMainFile files₂ with
        | none => rw [h₁, h₂] at hmf; simp at hmf
        | some g₀ =>
          rw [h₁, h₂] at hmf
          have hname : f₀.name = g₀.name :=
            congrArg Prod.fst (by simpa using hmf)
          dsimp only
          rw [hname]
    dsimp only
    rw [hb]

/-- Witness for the amended C9: two submissions differing only in file
contents produce identical calls. -/
theorem commands_content_independent_witness :
    executeCode sampleEnv "c"
        [{ name := "main.c", content := "int main()", isMain := true }] ""
      = executeCode sampleEnv "c"
        [{ name := "main.c", content := "other content", isMain := true }] "" :=
  commands_content_independent sampleEnv "c" "" _ _ rfl

theorem processCase_mem (runner : Nat → CallResult) (tcs : List TestCase)
    (i : Nat) (h : i < tcs.length) :
    processCase (runner i) (tcs.get ⟨i, h⟩)
      ∈ (executeTestCases runner tcs).fst := by
  unfold executeTestCases
  dsimp only
  rw [List.mem_mergeSort]
  apply List.mem_map.mpr
  refine ⟨(i, tcs.get ⟨i, h⟩), ?_, rfl⟩
  have he : i < tcs.enum.length := by
    rw [List.enum_length]
    exact h
  have hg : tcs.enum.get ⟨i, he⟩ = (i, tcs.get ⟨i, h⟩) := by
    rw [List.get_eq_getElem, List.get_eq_getElem]
    exact List.getElem_enum tcs i he
  rw [← hg]
  exact List.get_mem tcs.enum i he

/-- Claim C5: every test case that `executeTestCases` evaluates to a
returned execution result is recorded with `passed` true exactly when
the trimmed actual stdout equals the trimmed expected output — the
comparison is plain string equality after trimming leading and trailing
whitespace, nothing else is normalized — and with `success` true
exactly when the underlying execution succeeded AND `passed` holds. -/
theorem testcase_passed_trim_only (runner : Nat → CallResult)
    (tcs : List TestCase) (i : Nat) (r : ExecutionResult)
    (h : i < tcs.length) (hr : runner i = CallResult.ok r) :
    processCase (runner i) (tcs.get ⟨i, h⟩)
      ∈ (executeTestCases runner tcs).fst ∧
    (processCase (runner i) (tcs.get ⟨i, h⟩)).passed
      = (jsTrim r.stdout == jsTrim (tcs.get ⟨i, h⟩).expectedOutput) ∧
    (processCase (runner i) (tcs.get ⟨i, h⟩)).success
      = (r.success
          && (jsTrim r.stdout == jsTrim (tcs.get ⟨i, h⟩).expectedOutput)) := by
  refine ⟨processCase_mem runner tcs i h, ?_, ?_⟩ <;>
    simp [processCase, hr, jsOrStr_empty]

/-- A sample runner: the first call returns a successful execution whose
stdout is the expected output plus a newline, the second call throws. -/
def sampleRunner : Nat → CallResult := fun i =>
  if i = 0 then
    CallResult.ok
      { stdout := "12\n", stderr := "", exitCode := 0, compilationOutput := "",
        executionTime := 7, memoryUsage := 0, success := true }
  else CallResult.thrown "workspace failure"

/-- Two sample test cases whose `order` fields invert the array order. -/
def sampleTestCases : List TestCase :=
  [{ input := "a", expectedOutput := "12", order := 5 },
   { input := "b", expectedOutput := "9", order := 1 }]

/-- Witness for C5: stdout `"12\n"` trim-matches expected `"12"`. -/
theorem testcase_passed_trim_only_witness :
    processCase (sampleRunner 0) (sampleTestCases.get ⟨0, by decide⟩)
      ∈ (executeTestCases sampleRunner sampleTestCases).fst ∧
    (processCase (sampleRunner 0) (sampleTestCases.get ⟨0, by decide⟩)).passed
      = true ∧
    (processCase (sampleRunner 0) (sampleTestCases.get ⟨0, by decide⟩)).success
      = true :=
  testcase_passed_trim_only sampleRunner sampleTestCases 0 _ (by decide) rfl

/-- Claim C6: when the execution of one case throws, that case is
recorded with `passed = false`, `success = false`, empty `actualOutput`,
exit code 1 and the exception message in `stderr`, and the batch is not
aborted: the result list still has one entry per supplied test case. -/
theorem testcase_fault_isolated (runner : Nat → CallResult)
    (tcs : List TestCase) (i : Nat) (msg : String)
    (h : i < tcs.length) (hr : runner i = CallResult.thrown msg) :
    ((executeTestCases runner tcs).fst).length = tcs.length ∧
    { input := (tcs.get ⟨i, h⟩).input,
      expectedOutput := (tcs.get ⟨i, h⟩).expectedOutput,
      order := (tcs.get ⟨i, h⟩).order, actualOutput := "", stderr := msg,
      compilationOutput := "", executionTime := 0, exitCode := 1,
      passed := false, success := false }
      ∈ (executeTestCases runner tcs).fst := by
  constructor
  · unfold executeTestCases
    dsimp only
    rw [List.length_mergeSort, List.length_map, List.enum_length]
  · have hm := processCase_mem runner tcs i h
    rw [hr] at hm
    simpa [processCase] using hm

/-- Witness for C6: the second sample call throws, its case is recorded
as failed with the fault message, and both cases are still present. -/
theorem testcase_fault_isolated_witness :
    ((executeTestCases sampleRunner sampleTestCases).fst).length = 2 ∧
    { input := "b", expectedOutput := "9", order := 1, actualOutput := "",
      stderr := "workspace failure", compilationOutput := "",
      executionTime := 0, exitCode := 1, passed := false, success := false }
      ∈ (executeTestCases sampleRunner sampleTestCases).fst :=
  testcase_fault_isolated sampleRunner sampleTestCases 1 "workspace failure"
    (by decide) rfl

/-- Claim C7: `executeTestCases` drives the executor strictly in the
order of the supplied array — the log of stdin values handed to the
i-th call is exactly the inputs in array order, regardless of the
`order` fields — and the returned list is the collection of per-case
results sorted ascending by `order` (a permutation of the in-order
results that is pairwise sorted). -/
theorem testcases_order_decoupled (runner : Nat → CallResult)
    (tcs : List TestCase) :
    (executeTestCases runner tcs).snd = tcs.map (fun tc => tc.input) ∧
    List.Pairwise (fun a b : TestCaseResult => a.order ≤ b.order)
      (executeTestCases runner tcs).fst ∧
    List.Perm (executeTestCases runner tcs).fst
      (tcs.enum.map (fun p => processCase (runner p.fst) p.snd)) := by
  refine ⟨?_, ?_, ?_⟩
  · unfold executeTestCases
    dsimp only
    exact List.map_congr_left (fun tc _ => jsOrStr_empty tc.input)
  · unfold executeTestCases
    dsimp only
    have hs := List.sorted_mergeSort
      (fun (a b c : TestCaseResult) (hab : orderLe a b = true)
          (hbc : orderLe b c = true) => by
        simp only [orderLe, decide_eq_true_eq] at hab hbc ⊢
        omega)
      (fun (a b : TestCaseResult) => by
        simp only [orderLe, Bool.or_eq_true, decide_eq_true_eq]
        exact Int.le_total a.order b.order)
      (tcs.enum.map (fun p => processCase (runner p.fst) p.snd))
    exact hs.imp (fun hab => by simpa [orderLe] using hab)
  · unfold executeTestCases
    dsimp only
    exact List.mergeSort_perm _ orderLe
